import Mathlib

/-!
Verification of the turtles generalized-parser specification against the
repository source.

The repository's DSL surface lives in src/turtles/easygrammar.py; the parsing
backend (turtles/grammar.py and turtles/backend/gll.py) is not part of the
source tree, so backend behaviour is modelled from the specification where a
claim depends on it.  Each definition carries a comment naming the source
function (or the spec section) it embeds.
-/

set_option maxRecDepth 10000

namespace Turtles

/-- Span of input text: start offset (inclusive) and stop offset (exclusive),
as carried by SPPF/parse-tree nodes per spec section 3. -/
abbrev Span := Nat × Nat

/-- Text of a span, as ParseTree.get_text does in the backend: the substring
of the original input covered by the node's extents. -/
def getText (input : String) (sp : Span) : String :=
  String.mk ((input.toList.drop sp.1).take (sp.2 - sp.1))

/-- Length of the maximal run of characters satisfying p at the head of a
list (greedy character-class repetition). -/
def runLen (p : Char → Bool) : List Char → Nat
  | [] => 0
  | c :: cs => if p c then runLen p cs + 1 else 0

end Turtles

namespace Turtles.PyRule

/-!
Embedding of the hydrated Rule instance state and of Rule.__eq__ / Rule.__hash__
from src/turtles/easygrammar.py lines 473-491.  A hydrated instance always has
`_text` set (line 458); `_mixin_value` is set only when the class mixes in one
of int/float/str/bool and the conversion succeeds (lines 446-455).
-/

/-- The converted value stored by the mixin branch of _hydrate_tree
(int(text), float(text), str(text) or bool(text)). -/
inductive MixinValue where
  | intV (n : Int)
  | floatV (q : Rat)
  | strV (s : String)
  | boolV (b : Bool)
  deriving DecidableEq

/-- State of a Python Rule instance: its class name, the optional
_mixin_value attribute, the optional _text attribute, and the object
identity (id()) used by the `self is other` fallback. -/
structure RuleInst where
  cls : String
  mixinVal : Option MixinValue
  text : Option String
  oid : Nat
  deriving DecidableEq

/-- A Python value a Rule instance may be compared against: a str, another
Rule instance, or anything else. -/
inductive PyVal where
  | str (s : String)
  | rule (r : RuleInst)
  | other (oid : Nat)
  deriving DecidableEq

/-- Python object identity `self is other`: true only when other is the same
object (same id). -/
def pyIs (self : RuleInst) : PyVal → Bool
  | .rule r => self.oid == r.oid
  | _ => false

/-- Equality of a mixin value with another Python value (the
`self._mixin_value == other` comparison).  Only the cases that matter for the
claims are interpreted; everything else falls back to identity-less False. -/
def mixinEq (m : MixinValue) : PyVal → Bool
  | .str s => match m with
    | .strV t => t == s
    | _ => false
  | _ => false

/-- Rule.__eq__ (easygrammar.py lines 473-484), translated branch by branch:
mixin value comparison first, then matched-text comparison against str or
against another Rule carrying _text, else `self is other`. -/
def ruleEq (self : RuleInst) (other : PyVal) : Bool :=
  match self.mixinVal with
  | some m => mixinEq m other
  | none =>
    match self.text with
    | some t =>
      match other with
      | .str s => t == s
      | .rule r =>
        match r.text with
        | some t2 => t == t2
        | none => pyIs self other
      | _ => pyIs self other
    | none => pyIs self other

/-- Rule.__hash__ (easygrammar.py lines 486-491): hash of the mixin value if
present, else hash of the matched text, else id(self).  The ambient Python
hash functions on mixin values and strings are abstract parameters. -/
def ruleHash (hm : MixinValue → Int) (hs : String → Int) (self : RuleInst) : Int :=
  match self.mixinVal with
  | some m => hm m
  | none =>
    match self.text with
    | some t => hs t
    | none => Int.ofNat self.oid

end Turtles.PyRule

namespace Turtles

/-!
Modelled from the spec: the rule registry behind register_rule lives in
turtles/grammar.py, which is not in the source tree.  The model follows
spec section 6: "register_rule(name, body_ir, source_file, line) - idempotent
under identical bodies; conflicting redefinition is an error."
-/

/-- Grammar IR (spec section 3): literals, character classes, named
references, choices, sequences, bounded repetition and optionals
(Optional(body) is sugar for Repeat(body, 0, 1, null), spec section 3). -/
inductive GrammarIR where
  | lit (s : String)
  | cls (ranges : List (Char × Char)) (neg : Bool)
  | ref (name : String)
  | seq (parts : List GrammarIR)
  | choice (alts : List GrammarIR)
  | rep (body : GrammarIR) (atLeast : Nat) (atMost : Option Nat) (sep : Option GrammarIR)

mutual

/-- Structural equality of IR nodes (the == comparison Python dataclasses
would perform on rule bodies). -/
def irEq : GrammarIR → GrammarIR → Bool
  | .lit s, .lit t => s == t
  | .cls r n, .cls r2 n2 => r == r2 && n == n2
  | .ref a, .ref b => a == b
  | .seq ps, .seq qs => irEqList ps qs
  | .choice ps, .choice qs => irEqList ps qs
  | .rep b m mo s, .rep b2 m2 mo2 s2 =>
      irEq b b2 && m == m2 && mo == mo2 &&
      (match s, s2 with
       | none, none => true
       | some x, some y => irEq x y
       | _, _ => false)
  | _, _ => false

/-- Structural equality of IR node lists. -/
def irEqList : List GrammarIR → List GrammarIR → Bool
  | [], [] => true
  | a :: as1, b :: bs => irEq a b && irEqList as1 bs
  | _, _ => false

end

theorem irEq_refl_aux : ∀ n : Nat, (∀ a : GrammarIR, sizeOf a ≤ n → irEq a a = true) ∧
    (∀ l : List GrammarIR, sizeOf l ≤ n → irEqList l l = true) := by
  intro n
  induction n using Nat.strong_induction_on with
  | _ n ih =>
    constructor
    · intro a ha
      match a with
      | .lit s => simp [irEq]
      | .cls r ng => simp [irEq]
      | .ref s => simp [irEq]
      | .seq ps =>
        have hs : sizeOf ps < n := by simp at ha; omega
        simpa [irEq] using (ih (sizeOf ps) hs).2 ps le_rfl
      | .choice ps =>
        have hs : sizeOf ps < n := by simp at ha; omega
        simpa [irEq] using (ih (sizeOf ps) hs).2 ps le_rfl
      | .rep b m mo s =>
        have hb : sizeOf b < n := by cases s <;> simp at ha <;> omega
        have h1 := (ih (sizeOf b) hb).1 b le_rfl
        cases s with
        | none => simp [irEq, h1]
        | some x =>
          have hx : sizeOf x < n := by simp at ha; omega
          have h2 := (ih (sizeOf x) hx).1 x le_rfl
          simp [irEq, h1, h2]
    · intro l hl
      match l with
      | [] => simp [irEqList]
      | a :: as1 =>
        have h1 : sizeOf a < n := by simp at hl; omega
        have h2 : sizeOf as1 < n := by simp at hl; omega
        simp [irEqList, (ih _ h1).1 a le_rfl, (ih _ h2).2 as1 le_rfl]

theorem irEq_refl (a : GrammarIR) : irEq a a = true :=
  (irEq_refl_aux (sizeOf a)).1 a le_rfl

theorem irEq_sound_aux : ∀ n : Nat,
    (∀ a b : GrammarIR, sizeOf a ≤ n → irEq a b = true → a = b) ∧
    (∀ l m : List GrammarIR, sizeOf l ≤ n → irEqList l m = true → l = m) := by
  intro n
  induction n using Nat.strong_induction_on with
  | _ n ih =>
    constructor
    · intro a b ha h
      match a, b with
      | .lit s, .lit t => simp [irEq] at h; simp [h]
      | .cls r ng, .cls r2 ng2 => simp [irEq] at h; simp [h.1, h.2]
      | .ref s, .ref t => simp [irEq] at h; simp [h]
      | .seq ps, .seq qs =>
        have hs : sizeOf ps < n := by simp at ha; omega
        simp [irEq] at h
        simp [(ih (sizeOf ps) hs).2 ps qs le_rfl h]
      | .choice ps, .choice qs =>
        have hs : sizeOf ps < n := by simp at ha; omega
        simp [irEq] at h
        simp [(ih (sizeOf ps) hs).2 ps qs le_rfl h]
      | .rep b m mo s, .rep b2 m2 mo2 s2 =>
        have hb : sizeOf b < n := by cases s <;> simp at ha <;> omega
        cases s with
        | none =>
          cases s2 with
          | none =>
            simp [irEq, and_assoc] at h
            obtain ⟨h1, h2, h3⟩ := h
            have hb2 := (ih (sizeOf b) hb).1 b b2 le_rfl h1
            simp [hb2, h2, h3]
          | some y => simp [irEq] at h
        | some x =>
          cases s2 with
          | none => simp [irEq] at h
          | some y =>
            have hx : sizeOf x < n := by simp at ha; omega
            simp [irEq, and_assoc] at h
            obtain ⟨h1, h2, h3, h4⟩ := h
            have hb2 := (ih (sizeOf b) hb).1 b b2 le_rfl h1
            have hxy := (ih (sizeOf x) hx).1 x y le_rfl h4
            simp [hb2, h2, h3, hxy]
      | .lit s, .cls r2 ng2 => simp [irEq] at h
      | .lit s, .ref t => simp [irEq] at h
      | .lit s, .seq qs => simp [irEq] at h
      | .lit s, .choice qs => simp [irEq] at h
      | .lit s, .rep b2 m2 mo2 s2 => simp [irEq] at h
      | .cls r ng, .lit t => simp [irEq] at h
      | .cls r ng, .ref t => simp [irEq] at h
      | .cls r ng, .seq qs => simp [irEq] at h
      | .cls r ng, .choice qs => simp [irEq] at h
      | .cls r ng, .rep b2 m2 mo2 s2 => simp [irEq] at h
      | .ref s, .lit t => simp [irEq] at h
      | .ref s, .cls r2 ng2 => simp [irEq] at h
      | .ref s, .seq qs => simp [irEq] at h
      | .ref s, .choice qs => simp [irEq] at h
      | .ref s, .rep b2 m2 mo2 s2 => simp [irEq] at h
      | .seq ps, .lit t => simp [irEq] at h
      | .seq ps, .cls r2 ng2 => simp [irEq] at h
      | .seq ps, .ref t => simp [irEq] at h
      | .seq ps, .choice qs => simp [irEq] at h
      | .seq ps, .rep b2 m2 mo2 s2 => simp [irEq] at h
      | .choice ps, .lit t => simp [irEq] at h
      | .choice ps, .cls r2 ng2 => simp [irEq] at h
      | .choice ps, .ref t => simp [irEq] at h
      | .choice ps, .seq qs => simp [irEq] at h
      | .choice ps, .rep b2 m2 mo2 s2 => simp [irEq] at h
      | .rep b m mo s, .lit t => simp [irEq] at h
      | .rep b m mo s, .cls r2 ng2 => simp [irEq] at h
      | .rep b m mo s, .ref t => simp [irEq] at h
      | .rep b m mo s, .seq qs => simp [irEq] at h
      | .rep b m mo s, .choice qs => simp [irEq] at h
    · intro l m hl h
      match l, m with
      | [], [] => rfl
      | [], b :: bs => simp [irEqList] at h
      | a :: as1, [] => simp [irEqList] at h
      | a :: as1, b :: bs =>
        have h1 : sizeOf a < n := by simp at hl; omega
        have h2 : sizeOf as1 < n := by simp at hl; omega
        simp [irEqList] at h
        simp [(ih _ h1).1 a b le_rfl h.1, (ih _ h2).2 as1 bs le_rfl h.2]

theorem irEq_sound {a b : GrammarIR} (h : irEq a b = true) : a = b :=
  (irEq_sound_aux (sizeOf a)).1 a b le_rfl h

instance : DecidableEq GrammarIR := fun a b =>
  if h : irEq a b = true then .isTrue (irEq_sound h)
  else .isFalse (fun e => h (e ▸ irEq_refl a))

/-- A registered rule definition: name, body IR, source file and line
(spec section 3, Grammar Rule Definition). -/
structure RuleDefn where
  name : String
  body : GrammarIR
  srcFile : String
  line : Nat
  deriving DecidableEq

/-- The registry: rules in registration order, at most one per name. -/
abbrev RuleTable := List RuleDefn

/-- Error raised on conflicting redefinition (spec section 7, GrammarError). -/
structure RegError where
  message : String
  deriving DecidableEq

/-- Look up the registered body for a name. -/
def lookupBody (st : RuleTable) (name : String) : Option GrammarIR :=
  (st.find? (fun r => r.name == name)).map (fun r => r.body)

/-- Modelled from the spec: register_rule (turtles/grammar.py, absent from
src/).  Spec section 6: registering a name already present with an identical
body leaves the registry unchanged; a different body is an error; a new name
is appended. -/
def registerRule (st : RuleTable) (r : RuleDefn) : Except RegError RuleTable :=
  match lookupBody st r.name with
  | none => .ok (st ++ [r])
  | some b =>
    if b = r.body then .ok st
    else .error ⟨"conflicting redefinition of rule " ++ r.name⟩

end Turtles

namespace Turtles

/-- C10: equality of hydrated Rule instances without an int/float/str/bool
mixin base is by matched text: r == s for a string s iff the matched text
equals s; r == r2 for another hydrated instance iff their matched texts are
equal, regardless of the two instances' Rule classes; hash(r) is the hash of
the matched text, so no-mixin instances that compare equal hash equal
(src/turtles/easygrammar.py lines 473-491). -/
theorem claim_c10_rule_eq_hash_by_text
    (hm : PyRule.MixinValue → Int) (hs : String → Int)
    (r r2 : PyRule.RuleInst) (t t2 s : String)
    (hmix : r.mixinVal = none) (htext : r.text = some t) (ht2 : r2.text = some t2) :
    (PyRule.ruleEq r (.str s) = true ↔ t = s) ∧
    (PyRule.ruleEq r (.rule r2) = true ↔ t = t2) ∧
    PyRule.ruleHash hm hs r = hs t ∧
    (r2.mixinVal = none → PyRule.ruleEq r (.rule r2) = true →
      PyRule.ruleHash hm hs r = PyRule.ruleHash hm hs r2) := by
  refine ⟨?_, ?_, ?_, ?_⟩
  · simp [PyRule.ruleEq, hmix, htext]
  · simp [PyRule.ruleEq, hmix, htext, ht2]
  · simp [PyRule.ruleHash, hmix, htext]
  · intro hmix2 heq
    simp [PyRule.ruleEq, hmix, htext, ht2] at heq
    simp [PyRule.ruleHash, hmix, hmix2, htext, ht2, heq]

/-- Concrete instantiation of claim C10: two hydrated instances of different
classes with matched text "abc", compared with each other and with the
string "abc". -/
theorem claim_c10_rule_eq_hash_by_text_witness :
    (PyRule.ruleEq ⟨"Id", none, some "abc", 7⟩ (.str "abc") = true ↔ "abc" = "abc") ∧
    (PyRule.ruleEq ⟨"Id", none, some "abc", 7⟩ (.rule ⟨"Num", none, some "abc", 8⟩) = true ↔
      "abc" = "abc") ∧
    PyRule.ruleHash (fun _ => 0) (fun u => Int.ofNat u.length) ⟨"Id", none, some "abc", 7⟩ =
      (fun u : String => Int.ofNat u.length) "abc" ∧
    (PyRule.RuleInst.mixinVal ⟨"Num", none, some "abc", 8⟩ = none →
      PyRule.ruleEq ⟨"Id", none, some "abc", 7⟩ (.rule ⟨"Num", none, some "abc", 8⟩) = true →
      PyRule.ruleHash (fun _ => 0) (fun u => Int.ofNat u.length) ⟨"Id", none, some "abc", 7⟩ =
        PyRule.ruleHash (fun _ => 0) (fun u => Int.ofNat u.length) ⟨"Num", none, some "abc", 8⟩) :=
  claim_c10_rule_eq_hash_by_text (fun _ => 0) (fun u => Int.ofNat u.length)
    ⟨"Id", none, some "abc", 7⟩ ⟨"Num", none, some "abc", 8⟩ "abc" "abc" "abc"
    rfl rfl rfl

/-- C9: register_rule is idempotent under identical bodies (re-registering a
name with the identical body returns the registry unchanged) and rejects a
redefinition of a registered name with a different body.  Modelled from the
spec (section 6); register_rule itself lives in turtles/grammar.py, absent
from src/. -/
theorem claim_c9_register_rule_idempotent (st : RuleTable) (r : RuleDefn) :
    (lookupBody st r.name = some r.body → registerRule st r = .ok st) ∧
    (∀ b, lookupBody st r.name = some b → b ≠ r.body →
      registerRule st r = .error ⟨"conflicting redefinition of rule " ++ r.name⟩) := by
  constructor
  · intro h
    simp [registerRule, h]
  · intro b hb hne
    simp [registerRule, hb, hne]

/-- Registry with one registered rule, for the C9 witness. -/
def c9Table : RuleTable :=
  [⟨"Id", .rep (.cls [('a', 'z')] false) 1 none none, "test_turtles.py", 30⟩]

/-- Re-registration of Id with the identical body. -/
def c9Same : RuleDefn := ⟨"Id", .rep (.cls [('a', 'z')] false) 1 none none, "other.py", 59⟩

/-- Re-registration of Id with a different body. -/
def c9Diff : RuleDefn := ⟨"Id", .rep (.cls [('a', 'z'), ('0', '9')] false) 1 none none, "other.py", 59⟩

/-- Concrete instantiation of claim C9: re-registering Id with an identical
body leaves the registry unchanged; re-registering it with a different body
is an error. -/
theorem claim_c9_register_rule_idempotent_witness :
    registerRule c9Table c9Same = .ok c9Table ∧
    registerRule c9Table c9Diff = .error ⟨"conflicting redefinition of rule " ++ c9Diff.name⟩ :=
  ⟨(claim_c9_register_rule_idempotent c9Table c9Same).1 (by decide),
   (claim_c9_register_rule_idempotent c9Table c9Diff).2
     (.rep (.cls [('a', 'z')] false) 1 none none) (by decide) (by decide)⟩

end Turtles

namespace Turtles

/-!
Capture hydration.  tree.find_captures() lives in the missing backend; per
spec section 4.F it returns, for every capture name, the ordered capture
trees in input order: one tree per matched item for a capture on a Repeat of
rule references (spec: "repetition captures yield an ordered list reflecting
input order"), and a single tree spanning the whole match for a capture on a
scalar node or on a character-class repetition (spec section 8 scenarios 1-2:
name:[a-zA-Z]+ yields the matched substring).  The hydration loop itself is
in src/turtles/easygrammar.py lines 436-443 and is embedded verbatim below.
-/

/-- The value bound to a captured field by _hydrate_tree: either one string
or a list of strings (get_text of the capture trees). -/
inductive CaptureValue where
  | scalar (s : String)
  | items (ss : List String)
  deriving DecidableEq

/-- The capture loop of _hydrate_tree (easygrammar.py lines 436-443):
if len(capture_trees) == 1 the field is bound to the single tree's text,
otherwise to the list of the trees' texts. -/
def hydrateCapture (input : String) (ts : List Span) : CaptureValue :=
  match ts with
  | [t] => .scalar (getText input t)
  | _ => .items (ts.map (getText input))

/-- Apply the capture loop to every captured name (the for loop at
easygrammar.py line 436). -/
def hydrateFields (input : String) (caps : List (String × List Span)) :
    List (String × CaptureValue) :=
  caps.map (fun nc => (nc.1, hydrateCapture input nc.2))

/-- Python comparison of a str with an int (str.__eq__ returns
NotImplemented, int.__eq__ likewise, so == is always False). -/
def pyStrEqInt (_ : String) (_ : Int) : Bool := false

/-- char['a-zA-Z']. -/
def isAsciiLetter (c : Char) : Bool :=
  ('a' ≤ c && c ≤ 'z') || ('A' ≤ c && c ≤ 'Z')

/-- char['0-9']. -/
def isAsciiDigit (c : Char) : Bool := '0' ≤ c && c ≤ '9'

/-- char['a-zA-Z0-9-'], the Id character class of the SemVer grammars. -/
def isIdChar (c : Char) : Bool := isAsciiLetter c || isAsciiDigit c || c == '-'

/-- Literal match at an offset: input has lit as a prefix of its tail at i. -/
def litMatchesAt (cs : List Char) (i : Nat) (lit : List Char) : Bool :=
  lit.isPrefixOf (cs.drop i)

/-- Modelled from the spec: the GLL parse plus tree extraction for the
repeat[item, separator[sep], ...] construct, matching greedy runs of item
characters separated by sep, returning the item spans in input order and the
position after the last item (spec section 3: separator strictly between
occurrences, never trailing). -/
def sepItems (cs : List Char) (sep : Char) (p : Char → Bool) :
    Nat → Nat → List Span × Nat
  | 0, i => ([], i)
  | fuel + 1, i =>
    let len := runLen p (cs.drop i)
    if len = 0 then ([], i)
    else if cs.get? (i + len) = some sep then
      match sepItems cs sep p fuel (i + len + 1) with
      | ([], _) => ([(i, i + len)], i + len)
      | (m :: ms, e) => ((i, i + len) :: m :: ms, e)
    else ([(i, i + len)], i + len)

/-- Modelled from the spec: parse plus capture extraction for the Greeting
grammar (Greeting = "Hello, " name:[a-zA-Z]+ "!", spec section 8 scenario 1,
src/tests/test_parsing.py test_hello).  The name capture must be followed by
the literal "!" ending the input, so the unique derivation takes the maximal
letter run; its single capture tree spans that run. -/
def greetingParse (input : String) : Option (List (String × List Span)) :=
  let cs := input.toList
  let lit1 := "Hello, ".toList
  if litMatchesAt cs 0 lit1 then
    let st := lit1.length
    let len := runLen isAsciiLetter (cs.drop st)
    if 1 ≤ len && litMatchesAt cs (st + len) ['!'] && st + len + 1 == cs.length then
      some [("name", [(st, st + len)])]
    else none
  else none

/-- Modelled from the spec: parse plus capture extraction for the Prerelease
rule ("-" then ids: repeat[Id, separator[.], at_least[1]],
src/tests/test_parsing.py test_semver).  One capture tree per matched Id item
in input order (spec section 4.F). -/
def prereleaseParse (input : String) : Option (List (String × List Span)) :=
  let cs := input.toList
  if litMatchesAt cs 0 ['-'] then
    let (items, e) := sepItems cs '.' isIdChar cs.length 1
    if 1 ≤ items.length && e == cs.length then some [("ids", items)] else none
  else none

/-- Length of a NumId match at offset i: either the single digit 0 or a
nonzero digit followed by digits (NumId of test_semver). -/
def numIdLenAt (cs : List Char) (i : Nat) : Option Nat :=
  match cs.get? i with
  | some c =>
    if c = '0' then some 1
    else if '1' ≤ c && c ≤ '9' then some (1 + runLen isAsciiDigit (cs.drop (i + 1)))
    else none
  | none => none

/-- Modelled from the spec: parse plus top-level capture extraction for the
SemVer rule of src/tests/test_parsing.py test_semver (major "." minor "."
patch, optional "-"-prefixed prerelease, optional "+"-prefixed build).  The
scalar captures major, minor, patch, prerelease, build each yield one
capture tree spanning the matched sub-rule. -/
def semverParse (input : String) : Option (List (String × List Span)) := do
  let cs := input.toList
  let a ← numIdLenAt cs 0
  guard (cs.get? a = some '.')
  let b ← numIdLenAt cs (a + 1)
  let p1 := a + 1 + b
  guard (cs.get? p1 = some '.')
  let c ← numIdLenAt cs (p1 + 1)
  let p2 := p1 + 1 + c
  let (preCaps, p3) ←
    if cs.get? p2 = some '-' then
      let (items, e) := sepItems cs '.' isIdChar cs.length (p2 + 1)
      if 1 ≤ items.length then some ([("prerelease", [((p2 : Nat), e)])], e) else none
    else some ([], p2)
  let (buildCaps, p4) ←
    if cs.get? p3 = some '+' then
      let (items, e) := sepItems cs '.' isIdChar cs.length (p3 + 1)
      if 1 ≤ items.length then some ([("build", [((p3 : Nat), e)])], e) else none
    else some ([], p3)
  guard (p4 = cs.length)
  pure ([("major", [((0 : Nat), a)]), ("minor", [((a + 1 : Nat), a + 1 + b)]),
         ("patch", [((p1 + 1 : Nat), p1 + 1 + c)])] ++ preCaps ++ buildCaps)

/-- C6: parsing "Hello, World!" against Greeting = "Hello, " name:[a-zA-Z]+
"!" succeeds and hydration binds the capture name to "World"
(spec section 8 scenario 1; src/tests/test_parsing.py test_hello). -/
theorem claim_c6_greeting_name_world :
    (greetingParse "Hello, World!").map (hydrateFields "Hello, World!") =
      some [("name", .scalar "World")] := by
  decide

/-- C2 (failing direction): the hydration loop of _hydrate_tree
(easygrammar.py lines 436-443) binds a Repeat capture that matched exactly
one item to the single item's text, not to a one-element list, contradicting
spec section 4.F and the repo's own test (test_semver expects
prerelease.ids == ["alpha"]); with two or more items the ordered list is
produced as claimed. -/
theorem claim_c2_repeat_capture_one_item_scalar :
    (prereleaseParse "-alpha").map (hydrateFields "-alpha") =
      some [("ids", .scalar "alpha")] ∧
    CaptureValue.scalar "alpha" ≠ .items ["alpha"] ∧
    (prereleaseParse "-a.b").map (hydrateFields "-a.b") =
      some [("ids", .items ["a", "b"])] := by
  refine ⟨by decide, by decide, by decide⟩

/-- C3 (failing direction): hydrating the successful parse of
"1.2.3-alpha+3.14" against the SemVer grammar binds every captured field to
a plain string: major becomes the str "1" (and str == int is always False in
Python, so the test's major == 1 fails) and prerelease becomes the flat str
"-alpha", which carries no ids list. -/
theorem claim_c3_semver_hydrates_to_strings :
    (semverParse "1.2.3-alpha+3.14").map (hydrateFields "1.2.3-alpha+3.14") =
      some [("major", .scalar "1"), ("minor", .scalar "2"), ("patch", .scalar "3"),
            ("prerelease", .scalar "-alpha"), ("build", .scalar "+3.14")] ∧
    pyStrEqInt "1" 1 = false ∧
    CaptureValue.scalar "-alpha" ≠ .items ["alpha"] := by
  refine ⟨by decide, rfl, by decide⟩

end Turtles

namespace Turtles

/-!
Error reporter, modelled from the spec: the farthest-position tracker and the
message formatter live in the missing backend (turtles/backend/gll.py).
Spec section 4.G: maintain farthest_pos (the greatest offset any descriptor
reached before failing to advance) and the expected atom descriptions there;
on failure format the 1-indexed line/column of farthest_pos, the offending
line's text with a caret, and the sorted deduplicated expected list.
-/

/-- Outcome of matching a flat sequence of literal atoms: the end position on
success, or the farthest failing offset with the expected atoms there. -/
inductive SeqOutcome where
  | ok (endPos : Nat)
  | fail (farthest : Nat) (expected : List String)
  deriving DecidableEq

/-- Modelled from the spec: the GLL core's atom-by-atom advance over a rule
whose body is a flat sequence of literals (spec section 4.D step 3).  There
is a single descriptor path, so the farthest position is the offset at which
the first non-matching literal was attempted and the expected set is that
literal alone. -/
def matchLits (cs : List Char) : Nat → List String → SeqOutcome
  | i, [] => .ok i
  | i, lit :: rest =>
    if litMatchesAt cs i lit.toList then matchLits cs (i + lit.toList.length) rest
    else .fail i [lit]

/-- 1-indexed line and column of an offset (spec section 4.G). -/
def lineColOf (input : String) (off : Nat) : Nat × Nat :=
  let before := input.toList.take off
  (1 + before.count '\n', (before.reverse.takeWhile (fun c => c ≠ '\n')).length + 1)

/-- The text of the line containing an offset (spec section 4.G: the
offending line's text). -/
def lineTextAt (input : String) (off : Nat) : String :=
  let cs := input.toList
  String.mk (((cs.take off).reverse.takeWhile (fun c => c ≠ '\n')).reverse ++
    (cs.drop off).takeWhile (fun c => c ≠ '\n'))

/-- The caret line pointing at an offset's column (spec section 4.G). -/
def caretLineAt (input : String) (off : Nat) : String :=
  String.mk (List.replicate ((lineColOf input off).2 - 1) ' ' ++ ['^'])

/-- C5: matching "hello earth" against the rule "hello" " " "world" fails
with farthest position 6 and expected set exactly {"world"}; the error is
reported at line 1, column 7, with the offending line "hello earth" and a
caret under column 7 (spec section 8 scenario 6;
src/tests/demo_error_messages.py demo_basic_literal_error). -/
theorem claim_c5_hello_earth_error :
    matchLits "hello earth".toList 0 ["hello", " ", "world"] = .fail 6 ["world"] ∧
    lineColOf "hello earth" 6 = (1, 7) ∧
    lineTextAt "hello earth" 6 = "hello earth" ∧
    caretLineAt "hello earth" 6 = "      ^" := by
  refine ⟨by decide, by decide, by decide, by decide⟩

end Turtles

namespace Turtles

/-!
The GLL core, modelled from the spec (turtles/backend/gll.py is not in the
source tree).  Spec section 4.D: the engine schedules deduplicated
descriptors from a work-list; a descriptor is never processed twice, and
descriptors range over a finite space (grammar slots x input positions), so
the main loop terminates for every grammar, including left-recursive ones
(spec: "Descriptor deduplication guarantees O(n^3) worst-case time").
The loop below is that work-list: pop a descriptor, skip it if already
processed, otherwise process it and enqueue its successor descriptors.
-/

/-- The descriptor work-list main loop (spec section 4.D step 2), with an
explicit fuel bound: pop a descriptor, skip if seen, else mark seen and
enqueue its successors.  Returns the set of processed descriptors, or none
if the fuel ran out (proved impossible for the bound used by gllAccepts). -/
def satLoop {α : Type} [DecidableEq α] (succ : α → List α → List α) :
    Nat → List α → List α → Option (List α)
  | 0, _, _ => none
  | _ + 1, [], seen => some seen
  | fuel + 1, d :: rest, seen =>
    if d ∈ seen then satLoop succ fuel rest seen
    else satLoop succ fuel (rest ++ succ d seen) (d :: seen)

theorem nodup_length_le_card {α : Type} [DecidableEq α] (U : Finset α) (l : List α)
    (hnd : l.Nodup) (hsub : ∀ x ∈ l, x ∈ U) : l.length ≤ U.card := by
  have h1 : l.toFinset.card = l.length := List.toFinset_card_of_nodup hnd
  have h2 : l.toFinset ⊆ U := by
    intro x hx
    exact hsub x (List.mem_toFinset.mp hx)
  calc l.length = l.toFinset.card := h1.symm
    _ ≤ U.card := Finset.card_le_card h2

theorem satLoop_isSome {α : Type} [DecidableEq α] (succ : α → List α → List α)
    (U : Finset α) (B : Nat)
    (hB : ∀ d s, (succ d s).length ≤ B)
    (hU : ∀ d s, ∀ e ∈ succ d s, e ∈ U) :
    ∀ fuel queue seen, (∀ d ∈ queue, d ∈ U) → (∀ d ∈ seen, d ∈ U) → seen.Nodup →
      queue.length + (B + 1) * (U.card - seen.length) < fuel →
      (satLoop succ fuel queue seen).isSome := by
  intro fuel
  induction fuel with
  | zero => intro queue seen hq hs hnd hle; omega
  | succ fuel ih =>
    intro queue seen hq hs hnd hle
    match queue with
    | [] => simp [satLoop]
    | d :: rest =>
      by_cases hd : d ∈ seen
      · rw [satLoop, if_pos hd]
        apply ih rest seen (fun x hx => hq x (List.mem_cons_of_mem d hx)) hs hnd
        simp only [List.length_cons] at hle
        omega
      · rw [satLoop, if_neg hd]
        have hdU : d ∈ U := hq d (List.mem_cons_self d rest)
        have hs2 : ∀ x ∈ d :: seen, x ∈ U := by
          intro x hx
          rcases List.mem_cons.mp hx with h | h
          · exact h ▸ hdU
          · exact hs x h
        have hnd2 : (d :: seen).Nodup := List.nodup_cons.mpr ⟨hd, hnd⟩
        have hcard : seen.length + 1 ≤ U.card := by
          have := nodup_length_le_card U (d :: seen) hnd2 hs2
          simpa using this
        apply ih (rest ++ succ d seen) (d :: seen) ?_ hs2 hnd2
        · have hsb := hB d seen
          have hsplit : U.card - seen.length = (U.card - (seen.length + 1)) + 1 := by omega
          rw [hsplit, Nat.mul_succ] at hle
          simp only [List.length_cons] at hle
          simp only [List.length_append, List.length_cons]
          omega
        · intro x hx
          rcases List.mem_append.mp hx with h | h
          · exact hq x (List.mem_cons_of_mem d h)
          · exact hU d seen x h

/-- Atom of a compiled production: literal, character-class matcher, or
non-terminal index (spec section 3, Compiled Grammar: "a flat sequence of
atoms"). -/
inductive GSym where
  | lit (cs : List Char)
  | cls (ranges : List (Char × Char)) (neg : Bool)
  | nt (idx : Nat)
  deriving DecidableEq

/-- The production table: for each non-terminal index, its alternates, each
a flat sequence of atoms. -/
abbrev GProds := List (List (List GSym))

/-- A descriptor, flattened: (non-terminal, alternate, dot position within
the alternate = grammar slot, origin position = the GSS node's input
position, current input position). -/
abbrev GItem := Nat × Nat × Nat × Nat × Nat

/-- Alternates of a non-terminal. -/
def altsOf (G : GProds) (nt : Nat) : List (List GSym) := (G.get? nt).getD []

/-- Atom sequence of one alternate. -/
def symsOf (G : GProds) (nt alt : Nat) : List GSym := ((altsOf G nt).get? alt).getD []

/-- Character-class matching: inside one of the inclusive ranges, flipped by
the negation bit (spec section 4.C). -/
def ccMatches (ranges : List (Char × Char)) (neg : Bool) (c : Char) : Bool :=
  let inR := ranges.any (fun r => r.1 ≤ c && c ≤ r.2)
  if neg then !inR else inR

/-- Modelled from the spec: the successor descriptors of one descriptor
(spec section 4.D step 3).  Terminal atoms advance the dot on a match;
a non-terminal atom X enqueues X's alternates at the current position
(GSS create) and resumes this descriptor past every already-recorded
completion of X at this position (the P table); at the end of a production
every recorded caller waiting on this non-terminal at the origin position is
resumed (GSS pop).  Working on the saturated descriptor set makes the
create/pop bookkeeping order-independent. -/
def gllSuccRaw (G : GProds) (cs : List Char) (d : GItem) (seen : List GItem) : List GItem :=
  match d with
  | (nt, alt, dot, org, pos) =>
    let syms := symsOf G nt alt
    match syms.get? dot with
    | some (.lit l) =>
      if litMatchesAt cs pos l then [(nt, alt, dot + 1, org, pos + l.length)] else []
    | some (.cls r ng) =>
      match cs.get? pos with
      | some c => if ccMatches r ng c then [(nt, alt, dot + 1, org, pos + 1)] else []
      | none => []
    | some (.nt m) =>
      ((List.range (altsOf G m).length).map (fun j => (m, j, 0, pos, pos)))
      ++ seen.filterMap (fun e =>
           match e with
           | (nt2, alt2, dot2, org2, pos2) =>
             if nt2 = m ∧ org2 = pos ∧ dot2 = (symsOf G nt2 alt2).length then
               some (nt, alt, dot + 1, org, pos2)
             else none)
    | none =>
      if dot = syms.length then
        seen.filterMap (fun e =>
          match e with
          | (nt2, alt2, dot2, org2, pos2) =>
            if pos2 = org ∧ (symsOf G nt2 alt2).get? dot2 = some (.nt nt) then
              some (nt2, alt2, dot2 + 1, org2, pos)
            else none)
      else []

/-- The finite descriptor space for a grammar and input length (spec
section 4.D: descriptors are deduplicated records over grammar slots and
input positions). -/
def itemUniverse (G : GProds) (n : Nat) : Finset GItem :=
  Finset.range G.length ×ˢ Finset.range ((G.map List.length).foldr Nat.max 0) ×ˢ
    Finset.range ((G.map (fun alts => (alts.map List.length).foldr Nat.max 0)).foldr Nat.max 0 + 1) ×ˢ
    Finset.range (n + 1) ×ˢ Finset.range (n + 1)

/-- Successors restricted to the descriptor space and deduplicated (the
descriptor set R is a set: spec section 4.D state (1)). -/
def gllSucc (G : GProds) (cs : List Char) (U : Finset GItem) (d : GItem) (seen : List GItem) :
    List GItem :=
  ((gllSuccRaw G cs d seen).filter (fun e => e ∈ U)).dedup

theorem length_dedup_filter_le {α : Type} [DecidableEq α] (U : Finset α) (l : List α) :
    ((l.filter (fun e => e ∈ U)).dedup).length ≤ U.card := by
  apply nodup_length_le_card U _ (List.nodup_dedup _)
  intro x hx
  have := List.mem_filter.mp (List.mem_dedup.mp hx)
  simpa using this.2

/-- The seed descriptors: one per alternate of the start symbol at position 0
(spec section 4.D step 1). -/
def gllInitQueue (G : GProds) (start : Nat) (U : Finset GItem) : List GItem :=
  ((List.range (altsOf G start).length).map (fun j => (start, j, 0, 0, 0))).filter
    (fun e => e ∈ U)

/-- The fuel that provably suffices for the work-list to drain: every step
removes one queue entry, and entries are enqueued only when an unseen
descriptor is processed, at most card-many times with at most card-many
successors each. -/
def gllFuel (G : GProds) (start : Nat) (U : Finset GItem) : Nat :=
  (gllInitQueue G start U).length + (U.card + 1) * U.card + 1

/-- Modelled from the spec: parse(start_symbol, input) at recognizer
granularity (spec section 4.D).  Runs the descriptor work-list to saturation
and reports acceptance: a completed alternate of the start symbol spanning
(0, |input|) (spec section 4.D step 4).  The outer Option records fuel
exhaustion, proved impossible in claim C7. -/
def gllAccepts (G : GProds) (start : Nat) (cs : List Char) : Option Bool :=
  let n := cs.length
  let U := itemUniverse G n
  (satLoop (gllSucc G cs U) (gllFuel G start U) (gllInitQueue G start U) []).map (fun seen =>
    seen.any (fun e =>
      match e with
      | (nt, alt, dot, org, pos) =>
        nt = start && org = 0 && pos = n && dot = (symsOf G nt alt).length))

end Turtles

namespace Turtles

/-!
CompiledGrammar.from_rules, modelled from the spec (spec section 4.B): lift
inline Repeat and anonymous Choice sub-expressions to fresh anonymous
non-terminals with deterministic names so every production body is a flat
sequence of atoms; a repetition body{m,M} (optional separator strictly
between items) is rewritten to the equivalent right-recursive grammar;
unresolved references are a fatal compile error.
-/

/-- Atom during normalization: references still by name. -/
inductive NSym where
  | lit (cs : List Char)
  | cls (ranges : List (Char × Char)) (neg : Bool)
  | name (nm : String)
  deriving DecidableEq

/-- Normalization state: the anonymous rules created so far and the fresh
name counter (deterministic naming, spec section 4.B step 2). -/
abbrev AnonSt := List (String × List (List NSym)) × Nat

/-- The atom sequence matching exactly k items of a repetition with the
separator strictly between items. -/
def repItemsSeq (sb ssep : List NSym) (k : Nat) : List NSym :=
  if k = 0 then [] else sb ++ (List.replicate (k - 1) (ssep ++ sb)).flatten

/-- Modelled from the spec: rewrite of Repeat(body, at_least, at_most, sep)
into fresh anonymous rules (spec section 4.B step 2).  Unbounded at_most
produces the right-recursive tail rule T with T -> body | body sep T and a
main rule unrolling the at_least mandatory items; a bounded at_most produces
one alternate per allowed item count. -/
def mkRepRule (sb ssep : List NSym) (m : Nat) (mo : Option Nat) (st : AnonSt) :
    List NSym × AnonSt :=
  let (defs, ctr) := st
  match mo with
  | none =>
    let tailName := "_rep_tail_" ++ toString ctr
    let mainName := "_rep_" ++ toString (ctr + 1)
    let tailAlts := [sb, sb ++ ssep ++ [NSym.name tailName]]
    let mainAlts :=
      if m = 0 then [[], [NSym.name tailName]]
      else [(List.replicate (m - 1) (sb ++ ssep)).flatten ++ [NSym.name tailName]]
    ([NSym.name mainName], (defs ++ [(tailName, tailAlts), (mainName, mainAlts)], ctr + 2))
  | some mx =>
    let mainName := "_rep_" ++ toString ctr
    let alts := (List.range (mx + 1 - m)).map (fun j => repItemsSeq sb ssep (m + j))
    ([NSym.name mainName], (defs ++ [(mainName, alts)], ctr + 1))

mutual

/-- Flat atom sequence for an IR node in sequence position, lifting inline
Choice and Repeat to fresh anonymous non-terminals (spec section 4.B). -/
def normSeqIR : GrammarIR → AnonSt → List NSym × AnonSt
  | .lit s, st => ([.lit s.toList], st)
  | .cls r n, st => ([.cls r n], st)
  | .ref nm, st => ([.name nm], st)
  | .seq parts, st => normSeqList parts st
  | .choice alts, st =>
    let (altSyms, st1) := normAltList alts st
    let (defs, ctr) := st1
    let anon := "_choice_" ++ toString ctr
    ([.name anon], (defs ++ [(anon, altSyms)], ctr + 1))
  | .rep body m mo sep, st =>
    let (sb, st1) := normSeqIR body st
    let (ssep, st2) :=
      match sep with
      | none => ([], st1)
      | some sp => normSeqIR sp st1
    mkRepRule sb ssep m mo st2

/-- Concatenated atom sequences of sequence parts. -/
def normSeqList : List GrammarIR → AnonSt → List NSym × AnonSt
  | [], st => ([], st)
  | p :: ps, st =>
    let (s1, st1) := normSeqIR p st
    let (s2, st2) := normSeqList ps st1
    (s1 ++ s2, st2)

/-- One flat alternate per choice branch. -/
def normAltList : List GrammarIR → AnonSt → List (List NSym) × AnonSt
  | [], st => ([], st)
  | a :: as1, st =>
    let (s1, st1) := normSeqIR a st
    let (rest, st2) := normAltList as1 st1
    (s1 :: rest, st2)

end

/-- Alternates of a rule body: a top-level Choice contributes one alternate
per branch, anything else a single alternate. -/
def normTop (b : GrammarIR) (st : AnonSt) : List (List NSym) × AnonSt :=
  match b with
  | .choice alts => normAltList alts st
  | _ =>
    let (s, st1) := normSeqIR b st
    ([s], st1)

/-- The compiled grammar: non-terminal names (user rules then anonymous
lifts) and the production table (spec section 3, Compiled Grammar,
immutable after build). -/
structure CompiledG where
  names : List String
  prods : GProds
  deriving DecidableEq

/-- Modelled from the spec: CompiledGrammar.from_rules (spec sections 4.B
and 6): normalize every registered rule, then resolve every name reference
to a non-terminal index; an unresolved reference is a fatal compile error
(none). -/
def fromRules (rules : List RuleDefn) : Option CompiledG :=
  let folded := rules.foldl
    (fun (acc : List (String × List (List NSym)) × AnonSt) r =>
      let (uds, st) := acc
      let (alts, st1) := normTop r.body st
      (uds ++ [(r.name, alts)], st1))
    ([], ([], 0))
  let allDefs := folded.1 ++ folded.2.1
  let names := allDefs.map (fun d => d.1)
  let resolve : NSym → Option GSym := fun s =>
    match s with
    | .lit l => some (.lit l)
    | .cls r n => some (.cls r n)
    | .name nm => (names.findIdx? (fun p => p == nm)).map .nt
  (allDefs.mapM (fun (d : String × List (List NSym)) => d.2.mapM (fun (alt : List NSym) => alt.mapM resolve))).map
    (fun prods => ⟨names, prods⟩)

/-!
The user API surface: RuleMeta.__call__ (src/turtles/easygrammar.py lines
367-403), embedded with the process-wide state passed explicitly.  The
backend parse is the spec-modelled recognizer above; disambiguation affects
only which derivation the extractor selects, never acceptance (spec section
4.E: "The filter is purely a selection pass"), so the recognizer ignores it.
-/

/-- The DisambiguationRules built from the class attributes (easygrammar.py
lines 378-389): priority names and per-rule associativity. -/
structure DisambigConfig where
  priority : List String
  associativity : List (String × String)
  deriving DecidableEq

/-- The ParseError value raised by RuleMeta.__call__ (easygrammar.py line
397): message, position and the raw input. -/
structure PyParseError where
  message : String
  position : Nat
  raw : String
  deriving DecidableEq

/-- Outcome of a call to the user API surface: a returned hydrated instance
(carrying the root extents and input; capture hydration is modelled
separately), or a raised exception. -/
inductive CallOutcome where
  | returned (extents : Span) (raw : String)
  | raised (e : PyParseError)
  deriving DecidableEq

/-- True iff the call raised an exception rather than returning a value. -/
def isRaised : CallOutcome → Bool
  | .raised _ => true
  | _ => false

/-- Process-wide interpreter state read by the DSL surface: the rule
registry filled by Rule.__init_subclass__, and the _captured_locals
snapshots (easygrammar.py lines 62-66), here an opaque association list. -/
structure ProcessState where
  registry : List RuleDefn
  capturedLocals : List (String × Nat)

/-- get_all_rules() (turtles/grammar.py, reading the process-wide registry):
returns the registered rules (easygrammar.py line 375). -/
def get_all_rules (st : ProcessState) : List RuleDefn := st.registry

/-- Modelled from the spec: GLLParser(grammar, disambig).parse(name, raw),
whose contract is parse(start_symbol, input) -> SPPF root or null (spec
section 4.D); on acceptance the root SPPF node spans (0, |input|) (spec
section 3 invariant 3). -/
def backendParse (g : CompiledG) (_cfg : DisambigConfig) (startName : String)
    (raw : String) : Option Span :=
  match g.names.findIdx? (fun p => p == startName) with
  | none => none
  | some i =>
    match gllAccepts g.prods i raw.toList with
    | some true => some (0, raw.length)
    | _ => none

/-- RuleMeta.__call__ (easygrammar.py lines 367-403), with the process state
explicit: read the registry (get_all_rules, line 375), compile it
(CompiledGrammar.from_rules, line 392), parse (line 395), and raise
ParseError("Failed to parse as " + cls.__name__, 0, raw) when parse returns
None (lines 396-397); on success extract and hydrate (lines 400-403).  A
compile failure propagates as a raised GrammarError (spec section 7). -/
def ruleMetaCall (st : ProcessState) (cfg : DisambigConfig) (clsName : String)
    (raw : String) : CallOutcome :=
  match fromRules (get_all_rules st) with
  | none => .raised ⟨"GrammarError: unresolved reference", 0, raw⟩
  | some grammar =>
    match backendParse grammar cfg clsName raw with
    | none => .raised ⟨"Failed to parse as " ++ clsName, 0, raw⟩
    | some extents => .returned extents raw

end Turtles

namespace Turtles

/-- The directly left-recursive expression grammar E = E "+" E | "1"
(src/test_parsing.py, class Add with left: Expr), as registered rules. -/
def exprRegistry : List RuleDefn :=
  [⟨"E", .choice [.seq [.ref "E", .lit "+", .ref "E"], .lit "1"], "test_parsing.py", 110⟩]

/-- Empty disambiguation configuration. -/
def emptyCfg : DisambigConfig := ⟨[], []⟩

/-- Registry with the single rule X = "a", for the C4 instances. -/
def c4Registry : List RuleDefn := [⟨"X", .lit "a", "t.py", 1⟩]

/-- C7: for every compiled grammar and every input the GLL work-list drains
within the explicit fuel bound and parse returns an outcome (spec section
4.D termination by descriptor deduplication); left recursion is not a
compile error: the directly left-recursive grammar E = E "+" E | "1"
compiles, and parsing "1+1" with it returns an outcome. -/
theorem claim_c7_parse_terminates :
    (∀ (G : GProds) (start : Nat) (cs : List Char), (gllAccepts G start cs).isSome) ∧
    (fromRules exprRegistry).isSome ∧
    ruleMetaCall ⟨exprRegistry, []⟩ emptyCfg "E" "1+1" = .returned (0, 3) "1+1" := by
  refine ⟨?_, by decide, by decide⟩
  intro G start cs
  unfold gllAccepts
  have h := satLoop_isSome (gllSucc G cs (itemUniverse G cs.length)) (itemUniverse G cs.length)
    (itemUniverse G cs.length).card
    (fun d s => length_dedup_filter_le _ _)
    (fun d s e he => by
      have := List.mem_filter.mp (List.mem_dedup.mp he)
      simpa using this.2)
    (gllFuel G start (itemUniverse G cs.length))
    (gllInitQueue G start (itemUniverse G cs.length)) []
    (fun x hx => by
      have := List.mem_filter.mp hx
      simpa using this.2)
    (fun x hx => absurd hx (List.not_mem_nil x))
    List.nodup_nil
    (by simp [gllFuel])
  obtain ⟨s, hs⟩ := Option.isSome_iff_exists.mp h
  simp [hs]

/-- C4 counterexample: on input "b", which does not match the start rule
X = "a", the user API surface RuleMeta.__call__ raises a ParseError
(easygrammar.py lines 395-397) instead of returning a Failure value. -/
theorem claim_c4_nonmatching_input_raises :
    isRaised (ruleMetaCall ⟨c4Registry, []⟩ emptyCfg "X" "b") = true := by decide

/-- C4 as amended: the parsing core does return its failure as a value
(parser.parse returns None, spec section 4.D contract), and the user API
surface then raises ParseError("Failed to parse as " + name, 0, raw) rather
than returning a Failure value (easygrammar.py lines 395-397). -/
theorem claim_c4_core_value_surface_raises :
    (fromRules c4Registry).map (fun g => backendParse g emptyCfg "X" "b") = some none ∧
    ruleMetaCall ⟨c4Registry, []⟩ emptyCfg "X" "b" =
      .raised ⟨"Failed to parse as X", 0, "b"⟩ :=
  ⟨by decide, by decide⟩

/-- C8: the user-facing parse call is a pure function of the compiled
grammar, the input and the disambiguation configuration: any two process
states (registry contents, registration sites, captured local scopes) that
compile to the same grammar give identical call results for the same class
name, input and configuration (easygrammar.py lines 367-403: the call reads
the process state only through get_all_rules feeding
CompiledGrammar.from_rules). -/
theorem claim_c8_call_pure_in_grammar (st1 st2 : ProcessState) (cfg : DisambigConfig)
    (clsName raw : String)
    (hg : fromRules (get_all_rules st1) = fromRules (get_all_rules st2)) :
    ruleMetaCall st1 cfg clsName raw = ruleMetaCall st2 cfg clsName raw := by
  unfold ruleMetaCall
  rw [hg]

/-- Concrete instantiation of claim C8: two process states differing in the
rules' recorded source locations and in the captured local scopes, but
compiling to the same grammar, give the same result. -/
theorem claim_c8_call_pure_in_grammar_witness :
    ruleMetaCall ⟨[⟨"X", .lit "a", "a.py", 1⟩], [("u", 1)]⟩ emptyCfg "X" "a" =
      ruleMetaCall ⟨[⟨"X", .lit "a", "b.py", 99⟩], [("v", 2)]⟩ emptyCfg "X" "a" :=
  claim_c8_call_pure_in_grammar ⟨[⟨"X", .lit "a", "a.py", 1⟩], [("u", 1)]⟩
    ⟨[⟨"X", .lit "a", "b.py", 99⟩], [("v", 2)]⟩ emptyCfg "X" "a" (by decide)

end Turtles

namespace Turtles

/-!
Claim C1: the arithmetic grammar E = E[+-]E | E[*/]E | "(" E ")" | [0-9]+
of src/test_gll_demo.py demo_expressions, with priority [Mul, Add] and both
rules left-associative.  The SPPF and the disambiguation filter live in the
missing backend; they are modelled from the spec: parseArith enumerates
every derivation of the input under the grammar (the packed-node
alternatives of the shared forest), and the filter of spec section 4.E
selects among them by priority, associativity, and document order.
-/

/-- A derivation tree of the expression grammar: Add and Mul carry the
matched operator character, Num its digits (Add covers [+-], Mul covers
[*/], as in demo_expressions). -/
inductive AExpr where
  | add (l : AExpr) (op : Char) (r : AExpr)
  | mul (l : AExpr) (op : Char) (r : AExpr)
  | paren (e : AExpr)
  | num (ds : List Char)
  deriving DecidableEq

/-- All ways to split s as left ++ [op] ++ right with op drawn from ops. -/
def opSplits (s : List Char) (ops : List Char) : List (List Char × Char × List Char) :=
  (List.range s.length).filterMap (fun i =>
    match s.get? i with
    | some c => if c ∈ ops then some (s.take i, c, s.drop (i + 1)) else none
    | none => none)

/-- Modelled from the spec: every derivation of the input under
E = E[+-]E | E[*/]E | "(" E ")" | [0-9]+, the alternatives an ambiguous
SPPF shares (spec section 3).  Fuel decreases on strictly shorter
sub-spans, so input length + 1 enumerates them all. -/
def parseAllE : Nat → List Char → List AExpr
  | 0, _ => []
  | fuel + 1, s =>
    (if s ≠ [] ∧ s.all isAsciiDigit then [AExpr.num s] else [])
    ++ (match s with
        | '(' :: rest =>
          if rest.getLast? = some ')' then
            (parseAllE fuel rest.dropLast).map AExpr.paren
          else []
        | _ => [])
    ++ (opSplits s ['+', '-']).flatMap (fun t =>
          (parseAllE fuel t.1).flatMap (fun le =>
            (parseAllE fuel t.2.2).map (fun re => AExpr.add le t.2.1 re)))
    ++ (opSplits s ['*', '/']).flatMap (fun t =>
          (parseAllE fuel t.1).flatMap (fun le =>
            (parseAllE fuel t.2.2).map (fun re => AExpr.mul le t.2.1 re)))

/-- All derivations of an input string under the expression grammar. -/
def parseArith (input : String) : List AExpr :=
  parseAllE (input.length + 1) input.toList

/-- The per-union disambiguation configuration (spec section 4.E inputs):
priority list, highest first, and associativity by rule name. -/
structure ArithCfg where
  priority : List String
  assoc : List (String × String)

/-- The operator rule a tree node is derived by, for the binary operator
rules of the grammar (spec section 4.E rule 1 applies to operator rules
X -> X op X; Paren and Num are not operator rules). -/
def opRuleOf : AExpr → Option String
  | .add _ _ _ => some "Add"
  | .mul _ _ _ => some "Mul"
  | _ => none

/-- Precedence rank: position in the priority list, smaller = tighter; a
rule not listed is lowest priority (spec section 9 open-question
resolution). -/
def prOf (cfg : ArithCfg) (r : String) : Nat :=
  match cfg.priority.findIdx? (fun p => p == r) with
  | some i => i
  | none => cfg.priority.length

/-- Declared associativity of a rule, none when unlisted. -/
def assocOf (cfg : ArithCfg) (r : String) : Option String :=
  (cfg.assoc.find? (fun p => p.1 == r)).map (fun p => p.2)

/-- Spec section 4.E rule 1: under an operator rule, an operand derived by a
lower-priority operator rule (pr(outer) < pr(inner)) is rejected — tighter
binds inner. -/
def priorityOK (cfg : ArithCfg) (outer : String) (child : AExpr) : Bool :=
  match opRuleOf child with
  | some innerR => !(prOf cfg outer < prOf cfg innerR)
  | none => true

/-- Spec section 4.E rule 2 on one operator node: a left-associative rule
rejects a right operand derived by the same rule; right-associative rejects
a left operand so derived; none (and an unlisted rule, spec section 9)
rejects both. -/
def opNodeOK (cfg : ArithCfg) (rule : String) (l r : AExpr) : Bool :=
  priorityOK cfg rule l && priorityOK cfg rule r &&
  (let a := (assocOf cfg rule).getD "none"
   if a = "left" then !(opRuleOf r == some rule)
   else if a = "right" then !(opRuleOf l == some rule)
   else !(opRuleOf r == some rule) && !(opRuleOf l == some rule))

/-- The filter at one node (spec section 4.E steps 1-2). -/
def nodeOK (cfg : ArithCfg) : AExpr → Bool
  | .add l _ r => opNodeOK cfg "Add" l r
  | .mul l _ r => opNodeOK cfg "Mul" l r
  | .paren _ => true
  | .num _ => true

/-- Modelled from the spec: the top-down walk of the disambiguation filter —
a derivation survives iff every node passes the priority and associativity
filters (spec section 4.E: at every ambiguous node the rejected packed
children are discarded). -/
def keepTree (cfg : ArithCfg) : AExpr → Bool
  | .add l c r => nodeOK cfg (.add l c r) && keepTree cfg l && keepTree cfg r
  | .mul l c r => nodeOK cfg (.mul l c r) && keepTree cfg l && keepTree cfg r
  | .paren e => keepTree cfg e
  | .num _ => true

/-- Modelled from the spec: disambiguation selects the surviving derivation,
first in document order when several survive (spec section 4.E step 4). -/
def disambiguate (cfg : ArithCfg) (cands : List AExpr) : Option AExpr :=
  (cands.filter (keepTree cfg)).head?

/-- Priority [Mul, Add], Add and Mul left-associative (demo_expressions:
Expr.precedence = [Mul, Add]; Expr.associativity = left for both). -/
def arithCfg : ArithCfg := ⟨["Mul", "Add"], [("Add", "left"), ("Mul", "left")]⟩

/-- C1: with priority [Mul, Add] and both rules left-associative,
the inputs "1+2*3" and "1+2+3" each have two derivations (ambiguous SPPF)
and disambiguation yields Add(1, Mul(2, 3)) for "1+2*3", the left-grouped
Add(Add(1, 2), 3) for "1+2+3", and Mul(Paren(Add(1, 2)), 3) for "(1+2)*3";
and for every left-associative rule the filter rejects every node whose
right operand is derived by that same rule (both Add and Mul here). -/
theorem claim_c1_arith_disambiguation :
    (parseArith "1+2*3").length = 2 ∧
    (parseArith "1+2+3").length = 2 ∧
    disambiguate arithCfg (parseArith "1+2*3") =
      some (.add (.num ['1']) '+' (.mul (.num ['2']) '*' (.num ['3']))) ∧
    disambiguate arithCfg (parseArith "1+2+3") =
      some (.add (.add (.num ['1']) '+' (.num ['2'])) '+' (.num ['3'])) ∧
    disambiguate arithCfg (parseArith "(1+2)*3") =
      some (.mul (.paren (.add (.num ['1']) '+' (.num ['2']))) '*' (.num ['3'])) ∧
    (∀ (l l2 r2 : AExpr) (c c2 : Char),
      keepTree arithCfg (.add l c (.add l2 c2 r2)) = false ∧
      keepTree arithCfg (.mul l c (.mul l2 c2 r2)) = false) := by
  refine ⟨by decide, by decide, by decide, by decide, by decide, ?_⟩
  intro l l2 r2 c c2
  constructor
  · simp [keepTree, nodeOK, opNodeOK, opRuleOf, assocOf, arithCfg]
  · simp [keepTree, nodeOK, opNodeOK, opRuleOf, assocOf, arithCfg]

end Turtles
